import Mathlib

/-!
Verification development for the PDF acroform extraction / LLM field-merging
pipeline (`pdf_acroform_extractor.py`, `field_processor.py`, `main.py`).

The pipeline stages call an external LLM and parse its response as JSON.
Every such call is modelled by an *oracle* argument that directly yields the
parsed value (`some parsed`) or a JSON-decode failure (`none`); the prompt
construction and markdown-fence stripping that precede `json.loads` in the
source do not affect any property below.  Python lists indexed by possibly
negative `int`s are modelled by `pyGet`; `dict` insertion and lookup by
`pyDictInsert` / `pyLookup`; `list(set(...))` by `pyListSet` (only the
underlying set of elements is relevant to every statement below).
-/

set_option autoImplicit false

namespace AcroformPipeline

/-- A form-field record, as produced by `PDFAcroformExtractor._extract_field_info`
and threaded through `FieldProcessor`.  The transient keys `sources` (added by
`_deduplicate_batch`) and `_group_id` (added by `_group_fields`) are optional. -/
structure Field where
  field_name : String
  source_pdf : String
  field_type : String := "text"
  required : Bool := false
  value : Option String := none
  options : Option (List String) := none
  max_length : Option Nat := none
  page : Option Nat := none
  sources : Option (List String) := none
  group_id : Option Nat := none
deriving DecidableEq, Repr, Inhabited

/-- One group of a parsed deduplication response:
`{"canonical_name": ..., "field_indices": [...], "reasoning": ...}`.
JSON numbers are signed, so indices are `Int`. -/
structure DedupGroup where
  canonical_name : String
  field_indices : List Int
  reasoning : String := ""
deriving DecidableEq, Repr

/-- One group of a parsed grouping response:
`{"group_name": ..., "field_indices": [...], "description": ...}`. -/
structure FieldGroup where
  group_name : String
  field_indices : List Int
  description : String := ""
deriving DecidableEq, Repr

/-- A parsed label/explanation response of `_generate_label_and_explanation`. -/
structure LabelExp where
  label : String
  explanation : String
deriving DecidableEq, Repr, Inhabited

/-- A synthesized parent question of a parsed conditional-logic response. -/
structure ParentQuestion where
  question_id : String
  label : String
  qtype : String
  options : Option (List String) := none
deriving DecidableEq, Repr

/-- A parsed `condition` object `{"operator": ..., "value": ...}`; the value is
kept abstract as its rendered JSON scalar, no property below inspects it. -/
structure Cond where
  operator : String
  value : String
deriving DecidableEq, Repr

/-- A value of the parsed `field_relationships` mapping: either the new dict
format `{"parent_id": ..., "condition": ...}` or the legacy bare-string format.
A present value is modelled as truthy (the source skips falsy values such as an
empty dict, which we model as absence). -/
inductive RelVal where
  | dict (parent_id : Option String) (condition : Option Cond)
  | legacy (parent : String)
deriving DecidableEq, Repr

/-- A parsed conditional-logic response of `_generate_conditional_logic`. -/
structure CondLogic where
  parent_questions : List ParentQuestion
  field_relationships : List (String × RelVal)
deriving DecidableEq, Repr

/-- Python `str.lower()`, at the ASCII level relevant to the field names used
in the statements below. -/
def pyLower (s : String) : String :=
  String.mk (s.data.map Char.toLower)

/-- Python list indexing `l[i]` for `int` `i`: non-negative indices from the
front, negative indices from the back, `none` models the `IndexError`. -/
def pyGet {α : Type} (l : List α) (i : Int) : Option α :=
  if 0 ≤ i then l[i.toNat]?
  else if 0 ≤ (l.length : Int) + i then l[((l.length : Int) + i).toNat]?
  else none

/-- Python `dict.get(k)` on an association list with unique keys. -/
def pyLookup {α : Type} (k : String) : List (String × α) → Option α
  | [] => none
  | p :: rest => if k = p.1 then some p.2 else pyLookup k rest

/-- Python `list(set(l))` for a list of strings.  Iteration order of a Python
set is unspecified; only the underlying set of elements matters to every
property below, so the deduplicated list is modelled as `List.dedup`. -/
def pyListSet (l : List String) : List String :=
  l.dedup

/-- The consecutive chunks `fields[i:i+batch_size]` produced by
`range(0, len(fields), batch_size)`.  A zero step raises `ValueError` in
Python; every statement below assumes `0 < bs`. -/
def pyChunks {α : Type} (bs : Nat) (l : List α) : List (List α) :=
  if h : bs = 0 ∨ l.isEmpty then []
  else l.take bs :: pyChunks bs (l.drop bs)
termination_by l.length
decreasing_by
  push_neg at h
  have hl : 0 < l.length := by
    cases l with
    | nil => simp at h
    | cons x xs => simp
  simp only [List.length_drop]
  omega

/-- The merging loop of `FieldProcessor._deduplicate_batch` over the parsed
groups: a group with an empty index list is skipped; otherwise the record at
the first listed index is copied, its `field_name` set to the canonical name
and a `sources` key set to `list(set(...))` of the `source_pdf` values at all
listed indices.  `none` models the `IndexError` raised by an out-of-range
index (there is no `try` around this loop in the source). -/
def dedup_merge (fields : List Field) : List DedupGroup → Option (List Field)
  | [] => some []
  | group :: rest =>
    match group.field_indices with
    | [] => dedup_merge fields rest
    | i0 :: _ =>
      match pyGet fields i0 with
      | none => none
      | some base_field =>
        match group.field_indices.mapM (fun idx => (pyGet fields idx).map Field.source_pdf) with
        | none => none
        | some sources =>
          match dedup_merge fields rest with
          | none => none
          | some deduplicated =>
            some ({ base_field with
                      field_name := group.canonical_name
                      sources := some (pyListSet sources) } :: deduplicated)

/-- `FieldProcessor._deduplicate_batch`: `resp` is the parsed LLM response, or
`none` on `json.JSONDecodeError`, in which case the batch is returned as is. -/
def _deduplicate_batch (fields : List Field) (resp : Option (List DedupGroup)) :
    Option (List Field) :=
  match resp with
  | none => some fields
  | some groups => dedup_merge fields groups

/-- The batch loop of `FieldProcessor._deduplicate_fields`: chunk `i` is
deduplicated against the response `oracle i` and the results concatenated. -/
def dedupChunks (oracle : Nat → Option (List DedupGroup)) :
    Nat → List (List Field) → Option (List Field)
  | _, [] => some []
  | i, batch :: rest =>
    match _deduplicate_batch batch (oracle i) with
    | none => none
    | some deduplicated_batch =>
      match dedupChunks oracle (i + 1) rest with
      | none => none
      | some tail => some (deduplicated_batch ++ tail)

/-- `FieldProcessor._deduplicate_fields`. -/
def _deduplicate_fields (batch_size : Nat) (oracle : Nat → Option (List DedupGroup))
    (fields : List Field) : Option (List Field) :=
  if fields.isEmpty then some []
  else dedupChunks oracle 0 (pyChunks batch_size fields)

/-- `PDFAcroformExtractor._get_field_type`'s `type_mapping` dict. -/
def type_mapping : List (String × String) :=
  [("/Tx", "text"), ("/Btn", "button"), ("/Ch", "choice"), ("/Sig", "signature")]

/-- `PDFAcroformExtractor._get_field_type`.  `field_info` is `none` when the
pypdf field info is not a dict, otherwise the dict with its values rendered by
`str(...)`; `field_info.get("/FT", "")` then `type_mapping.get(str(ft), "text")`. -/
def _get_field_type (field_info : Option (List (String × String))) : String :=
  match field_info with
  | none => "text"
  | some d =>
    let field_type := (pyLookup "/FT" d).getD ""
    (pyLookup field_type type_mapping).getD "text"

/-- `FieldProcessor._generate_label_and_explanation`: the whole LLM call and
JSON parse sit in one `try`, modelled by `oracle`; any failure (`none`) takes
the templated fallback built with `field_name.lower()`. -/
def _generate_label_and_explanation (oracle : String → Option LabelExp)
    (field_name : String) : LabelExp :=
  match oracle field_name with
  | some result => result
  | none =>
    { label := "What is your " ++ pyLower field_name ++ "?"
      explanation := "Enter your " ++ pyLower field_name }

/-- C7: for every field name, when the per-field label-generation call fails for
any reason (request error or unparseable response), the result is
deterministically `label = "What is your {field_name in lowercase}?"` and
`explanation = "Enter your {field_name in lowercase}"`. -/
theorem label_fallback_template (oracle : String → Option LabelExp)
    (field_name : String) (h : oracle field_name = none) :
    _generate_label_and_explanation oracle field_name =
      { label := "What is your " ++ pyLower field_name ++ "?"
        explanation := "Enter your " ++ pyLower field_name } := by
  simp [_generate_label_and_explanation, h]

/-- Witness for C7 at the field name `"DOB"` with an always-failing call. -/
theorem label_fallback_template_witness :
    _generate_label_and_explanation (fun _ => none) "DOB" =
      { label := "What is your dob?", explanation := "Enter your dob" } := by
  rw [label_fallback_template (fun _ => none) "DOB" rfl]
  decide

/-- C8: the form-field type mapping is total: the extracted `field_type` is
always one of `text`, `button`, `choice`, `signature`; `/Tx ↦ text`,
`/Btn ↦ button`, `/Ch ↦ choice`, `/Sig ↦ signature`, and any other `/FT` code,
a missing `/FT` key, or non-dict field info maps to `text`. -/
theorem field_type_mapping_total :
    (∀ info, _get_field_type info ∈ ["text", "button", "choice", "signature"])
    ∧ (∀ d, pyLookup "/FT" d = some "/Tx" → _get_field_type (some d) = "text")
    ∧ (∀ d, pyLookup "/FT" d = some "/Btn" → _get_field_type (some d) = "button")
    ∧ (∀ d, pyLookup "/FT" d = some "/Ch" → _get_field_type (some d) = "choice")
    ∧ (∀ d, pyLookup "/FT" d = some "/Sig" → _get_field_type (some d) = "signature")
    ∧ (∀ d s, pyLookup "/FT" d = some s → s ∉ ["/Tx", "/Btn", "/Ch", "/Sig"] →
        _get_field_type (some d) = "text")
    ∧ (∀ d, pyLookup "/FT" d = none → _get_field_type (some d) = "text")
    ∧ _get_field_type none = "text" := by
  refine ⟨?_, ?_, ?_, ?_, ?_, ?_, ?_, rfl⟩
  · intro info
    match info with
    | none => simp [_get_field_type]
    | some d =>
      simp only [_get_field_type, type_mapping, pyLookup]
      split_ifs <;> simp
  · intro d h; simp [_get_field_type, h, type_mapping, pyLookup]
  · intro d h; simp [_get_field_type, h, type_mapping, pyLookup]
  · intro d h; simp [_get_field_type, h, type_mapping, pyLookup]
  · intro d h; simp [_get_field_type, h, type_mapping, pyLookup]
  · intro d s h hs
    simp only [List.mem_cons, List.not_mem_nil] at hs
    push_neg at hs
    obtain ⟨h1, h2, h3, h4, -⟩ := hs
    simp [_get_field_type, h, type_mapping, pyLookup, h1, h2, h3, h4]
  · intro d h; simp [_get_field_type, h, type_mapping, pyLookup]

/-- Witness for C8: an unrecognized `/FT` code maps to `text`, and `/Btn`
maps to `button`. -/
theorem field_type_mapping_total_witness :
    _get_field_type (some [("/FT", "/Weird")]) = "text"
    ∧ _get_field_type (some [("/FT", "/Btn")]) = "button" :=
  ⟨field_type_mapping_total.2.2.2.2.2.1 [("/FT", "/Weird")] "/Weird" rfl (by decide),
   field_type_mapping_total.2.2.1 [("/FT", "/Btn")] rfl⟩

/-- The two records of the spec's end-to-end deduplication scenario. -/
def exNameField : Field := { field_name := "Name", source_pdf := "a.pdf" }

def exFullNameField : Field := { field_name := "Full Name", source_pdf := "b.pdf" }

/-- A parsed response grouping both records under canonical name `"Full Name"`. -/
def exDedupGroup : DedupGroup :=
  { canonical_name := "Full Name", field_indices := [0, 1], reasoning := "same" }

/-- The record `_deduplicate_batch` actually produces for that scenario. -/
def exMergedField : Field :=
  { exNameField with field_name := "Full Name", sources := some ["a.pdf", "b.pdf"] }

/-- C1 is false as stated: merging the spec's own example batch yields a record
whose `source_pdf` field is still the single string `"a.pdf"` copied from the
first listed record — not the deduplicated set of the contributing sources,
which lacks `"b.pdf"` there; the set `{"a.pdf", "b.pdf"}` is stored under the
separate `sources` key instead. -/
theorem dedup_source_pdf_counterexample :
    dedup_merge [exNameField, exFullNameField] [exDedupGroup] = some [exMergedField]
    ∧ exMergedField.field_name = "Full Name"
    ∧ exMergedField.source_pdf = "a.pdf"
    ∧ exMergedField.source_pdf ≠ "b.pdf"
    ∧ exMergedField.sources = some ["a.pdf", "b.pdf"] := by
  refine ⟨?_, rfl, rfl, by decide, rfl⟩
  decide

/-- C1 (amended): each returned group with a non-empty index list yields exactly
one merged record, a copy of the record at the group's first listed index whose
`field_name` is the canonical name and whose `sources` key (not `source_pdf`,
which keeps the first record's value) is the deduplicated set of the
`source_pdf` values of all fields at the listed indices (order-independent set
equality). -/
theorem dedup_merge_group_spec (fields : List Field) (group : DedupGroup)
    (i0 : Int) (rest : List Int) (base_field : Field) (sources : List String)
    (hidx : group.field_indices = i0 :: rest)
    (hbase : pyGet fields i0 = some base_field)
    (hsrc : group.field_indices.mapM (fun idx => (pyGet fields idx).map Field.source_pdf)
        = some sources) :
    dedup_merge fields [group]
      = some [{ base_field with
                  field_name := group.canonical_name
                  sources := some (pyListSet sources) }]
    ∧ (∀ groups out, dedup_merge fields groups = some out →
        dedup_merge fields (group :: groups)
          = some ({ base_field with
                      field_name := group.canonical_name
                      sources := some (pyListSet sources) } :: out))
    ∧ (pyListSet sources).toFinset = sources.toFinset := by
  refine ⟨?_, ?_, ?_⟩
  · simp only [dedup_merge, hidx, hbase]
    rw [← hidx, hsrc]
  · intro groups out hout
    simp only [dedup_merge, hidx, hbase]
    rw [← hidx, hsrc, hout]
  · ext s
    simp [pyListSet, List.mem_dedup]

/-- Witness for C1 (amended) at the spec's example scenario. -/
theorem dedup_merge_group_spec_witness :
    dedup_merge [exNameField, exFullNameField] [exDedupGroup]
      = some [{ exNameField with
                  field_name := exDedupGroup.canonical_name
                  sources := some (pyListSet ["a.pdf", "b.pdf"]) }] :=
  (dedup_merge_group_spec [exNameField, exFullNameField] exDedupGroup 0 [1]
    exNameField ["a.pdf", "b.pdf"] rfl rfl (by decide)).1

/-- C5: a batch whose deduplication response fails to parse is returned
unchanged (same length, records and order), and the fallback is per chunk:
with chunk 0 unparseable and chunk 1 parseable, chunk 0 passes through
verbatim while chunk 1 is still merged. -/
theorem dedup_parse_failure_per_chunk :
    (∀ batch : List Field, _deduplicate_batch batch none = some batch)
    ∧ (∀ (c₁ c₂ : List Field) (batch_size : Nat) (groups : List DedupGroup)
        (merged : List Field) (oracle : Nat → Option (List DedupGroup)),
        c₁.length = batch_size → 0 < batch_size → c₂.length ≤ batch_size → c₂ ≠ [] →
        oracle 0 = none → oracle 1 = some groups →
        dedup_merge c₂ groups = some merged →
        _deduplicate_fields batch_size oracle (c₁ ++ c₂) = some (c₁ ++ merged)) := by
  constructor
  · intro batch; rfl
  · intro c₁ c₂ batch_size groups merged oracle hlen hbs hle hne ho0 ho1 hmerge
    have hne' : (c₁ ++ c₂).isEmpty = false := by
      cases c₂ with
      | nil => exact absurd rfl hne
      | cons x xs => cases c₁ <;> simp
    have hbs' : batch_size ≠ 0 := Nat.pos_iff_ne_zero.mp hbs
    have hne₂ : c₂.isEmpty = false := by cases c₂ with
      | nil => exact absurd rfl hne
      | cons x xs => rfl
    have hchunks : pyChunks batch_size (c₁ ++ c₂) = [c₁, c₂] := by
      rw [pyChunks]
      rw [dif_neg (by push_neg; exact ⟨hbs', by simp [hne']⟩)]
      rw [← hlen, List.take_left, List.drop_left]
      rw [pyChunks]
      rw [dif_neg (by push_neg; exact ⟨by rw [hlen]; exact hbs', by simp [hne₂]⟩)]
      rw [List.take_of_length_le (hle.trans hlen.ge), List.drop_eq_nil_of_le (hle.trans hlen.ge)]
      rw [pyChunks]
      simp
    rw [_deduplicate_fields, if_neg (by simp [hne'])]
    rw [hchunks]
    simp only [dedupChunks, _deduplicate_batch, ho0, ho1, hmerge]
    simp

/-- A parsed response for the singleton batch `[exFullNameField]`. -/
def exDedupGroupB : DedupGroup :=
  { canonical_name := "Full Name", field_indices := [0], reasoning := "" }

/-- The merge of `[exFullNameField]` under `exDedupGroupB`. -/
def exMergedB : Field :=
  { exFullNameField with field_name := "Full Name", sources := some ["b.pdf"] }

/-- Witness for C5: two singleton chunks under `batch_size = 1`; the first
chunk's response is unparseable, the second parses and is merged. -/
theorem dedup_parse_failure_per_chunk_witness :
    _deduplicate_fields 1
      (fun i => if i = 0 then none else some [exDedupGroupB])
      ([exNameField] ++ [exFullNameField])
      = some ([exNameField] ++ [exMergedB]) :=
  dedup_parse_failure_per_chunk.2 [exNameField] [exFullNameField] 1 [exDedupGroupB]
    [exMergedB] (fun i => if i = 0 then none else some [exDedupGroupB])
    rfl (by decide) (by decide) (by decide) rfl rfl (by decide)

/-- C10: the deduplication stage is not total over syntactically valid
responses: a parsed response listing index `1` for a one-record batch indexes
the batch out of bounds and errors (`none`), both at batch level and at stage
level — while the JSON-decode fallback (`resp = none`) on the same batch
degrades to the unmerged batch. -/
theorem dedup_out_of_range_aborts :
    _deduplicate_batch [exNameField]
        (some [{ canonical_name := "X", field_indices := [1] }]) = none
    ∧ _deduplicate_fields 50
        (fun _ => some [{ canonical_name := "X", field_indices := [1] }])
        [exNameField] = none
    ∧ _deduplicate_batch [exNameField] none = some [exNameField] := by
  refine ⟨by decide, ?_, rfl⟩
  rw [_deduplicate_fields, if_neg (by decide)]
  rw [pyChunks]
  rw [dif_neg (by decide)]
  rw [pyChunks]
  norm_num
  decide

/-- The tagging loop of one group in `FieldProcessor._group_fields`: each
listed index passing the `field_idx < len(fields)` check contributes a copy of
`fields[field_idx]` tagged with `_group_id`; an index failing the check is
skipped silently; `none` models the `IndexError` of an index below
`-len(fields)`, which passes the check but indexes out of bounds. -/
def tagGroup (fields : List Field) (group_id : Nat) : List Int → Option (List Field)
  | [] => some []
  | field_idx :: rest =>
    if field_idx < (fields.length : Int) then
      match pyGet fields field_idx with
      | none => none
      | some field =>
        match tagGroup fields group_id rest with
        | none => none
        | some tail => some ({ field with group_id := some group_id } :: tail)
    else tagGroup fields group_id rest

/-- The outer loop of `FieldProcessor._group_fields` over `enumerate(groups)`. -/
def tagGroups (fields : List Field) : Nat → List FieldGroup → Option (List Field)
  | _, [] => some []
  | group_id, group :: rest =>
    match tagGroup fields group_id group.field_indices with
    | none => none
    | some tagged =>
      match tagGroups fields (group_id + 1) rest with
      | none => none
      | some tail => some (tagged ++ tail)

/-- `FieldProcessor._group_fields`: `resp` is the parsed grouping response, or
`none` on `json.JSONDecodeError`, in which case every field falls back to its
own singleton group `group_{idx}`. -/
def _group_fields (fields : List Field) (resp : Option (List FieldGroup)) :
    Option (List Field) :=
  if fields.isEmpty then some []
  else tagGroups fields 0 (match resp with
    | some gs => gs
    | none => (List.range fields.length).map fun (idx : Nat) =>
        { group_name := "group_" ++ toString idx
          field_indices := [(idx : Int)]
          description := "" })

/-- `pyGet` at an in-range non-negative index. -/
theorem pyGet_natCast {α : Type} (l : List α) (i : Nat) (h : i < l.length) :
    pyGet l (i : Int) = some (l.get ⟨i, h⟩) := by
  simp [pyGet, List.getElem?_eq_getElem h]

/-- `pyGet` at an in-range negative index `-j` selects from the back. -/
theorem pyGet_negCast {α : Type} (l : List α) (j : Nat) (h1 : 1 ≤ j)
    (h2 : j ≤ l.length) :
    pyGet l (-(j : Int)) = some (l.get ⟨l.length - j, by omega⟩) := by
  have hneg : ¬ (0 : Int) ≤ -(j : Int) := by omega
  have hin : (0 : Int) ≤ (l.length : Int) + -(j : Int) := by omega
  have htn : ((l.length : Int) + -(j : Int)).toNat = l.length - j := by omega
  rw [pyGet, if_neg hneg, if_pos hin, htn,
    List.getElem?_eq_getElem (by omega : l.length - j < l.length)]
  simp [List.get_eq_getElem]

/-- The singleton-group fallback tags the suffix `suf` of `pre ++ suf` with
consecutive group ids starting at `pre.length`. -/
theorem tagGroups_singletons (suf : List Field) : ∀ pre : List Field,
    tagGroups (pre ++ suf) pre.length
        ((List.range' pre.length suf.length).map fun (idx : Nat) =>
          ({ group_name := "group_" ++ toString idx
             field_indices := [(idx : Int)]
             description := "" } : FieldGroup))
      = some ((List.enumFrom pre.length suf).map fun p =>
          { p.2 with group_id := some p.1 }) := by
  induction suf with
  | nil => intro pre; rfl
  | cons f suf ih =>
    intro pre
    have hcond : (pre.length : Int) < ((pre ++ f :: suf).length : Int) := by
      rw [List.length_append, List.length_cons]
      push_cast
      omega
    have hget : pyGet (pre ++ f :: suf) (pre.length : Int) = some f := by
      rw [pyGet_natCast _ _ (by simp)]
      rw [List.get_eq_getElem, List.getElem_append_right (Nat.le_refl _)]
      simp
    have ihx := ih (pre ++ [f])
    rw [List.append_assoc, List.singleton_append,
      (by simp : (pre ++ [f]).length = pre.length + 1)] at ihx
    simp only [List.length_cons, List.range'_succ _ _ 1, List.map_cons]
    simp only [tagGroups, tagGroup]
    rw [if_pos hcond, hget, ihx]
    rfl

/-- C6: on an unparseable grouping response, `_group_fields` returns all `N`
fields in input order, each tagged with its own `_group_id`, and the assigned
`_group_id` values `0, …, N-1` are pairwise distinct. -/
theorem grouping_fallback_singletons (fields : List Field) :
    _group_fields fields none
      = some (fields.enum.map fun p => { p.2 with group_id := some p.1 })
    ∧ ((fields.enum.map fun p => { p.2 with group_id := some p.1 }).filterMap
        Field.group_id).Nodup := by
  constructor
  · match hf : fields with
    | [] => rfl
    | f :: rest =>
      rw [_group_fields, if_neg (by simp)]
      have := tagGroups_singletons (f :: rest) []
      simp only [List.nil_append, List.length_nil] at this
      rw [show List.range (f :: rest).length = List.range' 0 (f :: rest).length from
        List.range_eq_range' _]
      exact this
  · have hcomp : (fields.enum.map fun p => { p.2 with group_id := some p.1 }).filterMap
        Field.group_id = fields.enum.map Prod.fst := by
      rw [List.filterMap_map]
      rw [show (Field.group_id ∘ fun p : Nat × Field => { p.2 with group_id := some p.1 })
          = (some ∘ Prod.fst) from funext fun p => rfl]
      rw [List.filterMap_eq_map]
    rw [hcomp, List.enum_map_fst]
    exact List.nodup_range _

/-- C9: for a successfully parsed grouping response, (1) the output holds
exactly one record per index occurrence passing the `field_idx < len(fields)`
check, so its length is the number of such occurrences, not `N`; (2) an index
occurring in two groups duplicates its field (under the two distinct group
ids); (3) an index `≥ N` is silently skipped; (4) an in-range negative index
passes the check and selects a field from the end of the list. -/
theorem grouping_index_semantics :
    (∀ (fields : List Field) (groups : List FieldGroup) (out : List Field),
      fields ≠ [] → _group_fields fields (some groups) = some out →
      out.length = (groups.map fun g =>
        (g.field_indices.filter fun idx =>
          decide (idx < (fields.length : Int))).length).sum)
    ∧ (∀ (fields : List Field) (i : Nat) (h : i < fields.length) (n₁ n₂ d : String),
      _group_fields fields (some
          [{ group_name := n₁, field_indices := [(i : Int)], description := d },
           { group_name := n₂, field_indices := [(i : Int)], description := d }])
        = some [{ fields.get ⟨i, h⟩ with group_id := some 0 },
                { fields.get ⟨i, h⟩ with group_id := some 1 }])
    ∧ (∀ (fields : List Field) (k : Nat) (n d : String),
      _group_fields fields (some
          [{ group_name := n, field_indices := [((fields.length + k : Nat) : Int)],
             description := d }])
        = some [])
    ∧ (∀ (fields : List Field) (j : Nat) (h1 : 1 ≤ j) (h2 : j ≤ fields.length)
        (n d : String),
      _group_fields fields (some
          [{ group_name := n, field_indices := [-(j : Int)], description := d }])
        = some [{ fields.get ⟨fields.length - j, by omega⟩ with group_id := some 0 }]) := by
  refine ⟨?_, ?_, ?_, ?_⟩
  · intro fields groups out hne hout
    have key : ∀ (idxs : List Int) (gid : Nat) (o : List Field),
        tagGroup fields gid idxs = some o →
        o.length = (idxs.filter fun idx =>
          decide (idx < (fields.length : Int))).length := by
      intro idxs
      induction idxs with
      | nil => intro gid o ho; cases ho; rfl
      | cons idx rest ih =>
        intro gid o ho
        rw [tagGroup] at ho
        by_cases hlt : idx < (fields.length : Int)
        · rw [if_pos hlt] at ho
          match hg : pyGet fields idx with
          | none => rw [hg] at ho; cases ho
          | some f =>
            rw [hg] at ho
            match ht : tagGroup fields gid rest with
            | none => rw [ht] at ho; cases ho
            | some tail =>
              rw [ht] at ho
              cases ho
              have hrec := ih gid tail ht
              simp [List.filter_cons, hlt, hrec]
        · rw [if_neg hlt] at ho
          have hrec := ih gid o ho
          simp [List.filter_cons, hlt, hrec]
    have keys : ∀ (gs : List FieldGroup) (gid : Nat) (o : List Field),
        tagGroups fields gid gs = some o →
        o.length = (gs.map fun g =>
          (g.field_indices.filter fun idx =>
            decide (idx < (fields.length : Int))).length).sum := by
      intro gs
      induction gs with
      | nil => intro gid o ho; cases ho; rfl
      | cons g rest ih =>
        intro gid o ho
        rw [tagGroups] at ho
        match hg : tagGroup fields gid g.field_indices with
        | none => rw [hg] at ho; cases ho
        | some tagged =>
          rw [hg] at ho
          match ht : tagGroups fields (gid + 1) rest with
          | none => rw [ht] at ho; cases ho
          | some tail =>
            rw [ht] at ho
            cases ho
            simp only [List.map_cons, List.sum_cons, List.length_append]
            rw [key _ _ _ hg, ih _ _ ht]
    rw [_group_fields, if_neg (by simp [hne])] at hout
    exact keys groups 0 out hout
  · intro fields i h n₁ n₂ d
    have hne : fields.isEmpty = false := by
      cases fields with
      | nil => simp at h
      | cons x xs => rfl
    have hcond : (i : Int) < (fields.length : Int) := by omega
    rw [_group_fields, if_neg (by simp [hne])]
    simp [tagGroups, tagGroup, hcond, pyGet_natCast fields i h]
  · intro fields k n d
    by_cases hf : fields.isEmpty
    · rw [_group_fields, if_pos hf]
    · have hcond : ¬ (((fields.length + k : Nat) : Int) < (fields.length : Int)) := by
        push_cast
        omega
      have hk : ¬ ((k : Int) < 0) := by omega
      rw [_group_fields, if_neg hf]
      simp [tagGroups, tagGroup, hcond, hk]
  · intro fields j h1 h2 n d
    have hne : fields.isEmpty = false := by
      cases fields with
      | nil => simp at h2; omega
      | cons x xs => rfl
    have hcond : (-(j : Int)) < (fields.length : Int) := by omega
    rw [_group_fields, if_neg (by simp [hne])]
    simp [tagGroups, tagGroup, hcond, pyGet_negCast fields j h1 h2]

/-- Witness for C9: in the two-record batch, the parsed response lists index 1
in both groups, so the second record is duplicated under group ids 0 and 1
while the first record is dropped. -/
theorem grouping_index_semantics_witness :
    _group_fields [exNameField, exFullNameField] (some
        [{ group_name := "g1", field_indices := [(1 : Int)], description := "" },
         { group_name := "g2", field_indices := [(1 : Int)], description := "" }])
      = some [{ [exNameField, exFullNameField].get ⟨1, by decide⟩ with group_id := some 0 },
              { [exNameField, exFullNameField].get ⟨1, by decide⟩ with group_id := some 1 }] :=
  grouping_index_semantics.2.1 [exNameField, exFullNameField] 1 (by decide) "g1" "g2" ""

/-- The `_metadata` dict built for a regular field entry in
`_generate_conditional_logic`: the keys `field_name`, `source_pdf`,
`order_index`, `parent` and `position` are always present (`parent` and
`position` possibly with value `None`), `parent_condition` only when truthy. -/
structure Metadata where
  field_name : String
  source_pdf : List String
  order_index : Nat
  parent : Option String
  position : Option Nat
  parent_condition : Option Cond
deriving DecidableEq, Repr

/-- The keys of the `_metadata` dict, in insertion order. -/
def metadataKeys (m : Metadata) : List String :=
  ["field_name", "source_pdf", "order_index", "parent", "position"]
    ++ (if m.parent_condition.isSome then ["parent_condition"] else [])

/-- A value of the output schema mapping: either a synthesized parent question
(whose `_metadata` is the constant `{is_parent_question: True, generated: True}`
and whose `required` is the constant `False`) or a regular field entry. -/
inductive Entry where
  | parentQ (label : String) (qtype : String) (options : Option (List String))
  | fieldE (label : String) (explanation : String) (ftype : String) (required : Bool)
      (placeholder : String) (meta : Metadata) (options : Option (List String))
      (max_length : Option Nat)
deriving DecidableEq, Repr

/-- Whether the entry's `_metadata` carries `is_parent_question = True`. -/
def isParentQuestion : Entry → Bool
  | .parentQ _ _ _ => true
  | .fieldE _ _ _ _ _ _ _ _ => false

/-- The value of the entry's `_metadata["parent"]` key (`none` = `None`). -/
def entryParent : Entry → Option String
  | .parentQ _ _ _ => none
  | .fieldE _ _ _ _ _ meta _ _ => meta.parent

/-- The keys of the entry's `_metadata` dict. -/
def entryMetaKeys : Entry → List String
  | .parentQ _ _ _ => ["is_parent_question", "generated"]
  | .fieldE _ _ _ _ _ meta _ _ => metadataKeys meta

/-- Python `output[key] = value` on an (insertion-ordered) dict: an existing
key keeps its position and gets the new value, a new key is appended. -/
def pyDictInsert {α : Type} (m : List (String × α)) (k : String) (v : α) :
    List (String × α) :=
  if k ∈ m.map Prod.fst then m.map fun p => if p.1 = k then (p.1, v) else p
  else m ++ [(k, v)]

/-- The parent-question entry built by `_generate_conditional_logic`. -/
def mkParentEntry (q : ParentQuestion) : Entry :=
  .parentQ q.label q.qtype q.options

/-- The regular field entry built by `_generate_conditional_logic` for the
field at positional index `idx`: label/explanation from the per-field LLM call
(with its deterministic fallback), `order_index` from `_group_id` (or `idx`),
`parent`/`parent_condition` from `relationships.get(str(idx))` (dict or legacy
string format), a synthesized placeholder, and `options`/`max_length` carried
over when truthy. -/
def mkFieldEntry (oracle : String → Option LabelExp)
    (relationships : List (String × RelVal)) (idx : Nat) (field : Field) : Entry :=
  let label_explanation := _generate_label_and_explanation oracle field.field_name
  let order_index := field.group_id.getD idx
  let parent_pair : Option String × Option Cond :=
    match pyLookup (toString idx) relationships with
    | some (.dict parent_id condition) => (parent_id, condition)
    | some (.legacy parent) => (some parent, none)
    | none => (none, none)
  .fieldE label_explanation.label label_explanation.explanation
    field.field_type field.required
    ("Enter your " ++ pyLower field.field_name)
    { field_name := field.field_name
      source_pdf := field.sources.getD [field.source_pdf]
      order_index := order_index
      parent := parent_pair.1
      position := none
      parent_condition := parent_pair.2 }
    (match field.options with
      | some opts => if opts.isEmpty then none else some opts
      | none => none)
    (match field.max_length with
      | some n => if n = 0 then none else some n
      | none => none)

/-- The first insertion loop of `_generate_conditional_logic`: parent
questions, each keyed by its `question_id`. -/
def insertParents : List (String × Entry) → List ParentQuestion → List (String × Entry)
  | output, [] => output
  | output, q :: rest => insertParents (pyDictInsert output q.question_id (mkParentEntry q)) rest

/-- The second insertion loop of `_generate_conditional_logic`: every field,
keyed by its `field_name`, enumerated from `idx`. -/
def insertFields (oracle : String → Option LabelExp)
    (relationships : List (String × RelVal)) :
    List (String × Entry) → Nat → List Field → List (String × Entry)
  | output, _, [] => output
  | output, idx, field :: rest =>
    insertFields oracle relationships
      (pyDictInsert output field.field_name (mkFieldEntry oracle relationships idx field))
      (idx + 1) rest

/-- `FieldProcessor._generate_conditional_logic`: `resp` is the parsed
structural-synthesis response, or `none` on `json.JSONDecodeError`, in which
case it falls back to `{parent_questions: [], field_relationships: {}}`.
Parent questions are inserted first, then all fields. -/
def _generate_conditional_logic (fields : List Field) (resp : Option CondLogic)
    (oracle : String → Option LabelExp) : List (String × Entry) :=
  let conditional_logic := resp.getD { parent_questions := [], field_relationships := [] }
  insertFields oracle conditional_logic.field_relationships
    (insertParents [] conditional_logic.parent_questions) 0 fields

/-- `main`'s control flow after `extract_acroforms` returns: with zero
extracted fields it prints a notice and calls `sys.exit(0)` before the
extract-only branch, writing nothing; otherwise extract-only mode writes
`{"total_fields": N, "fields": [...]}` and returns; otherwise the LLM
pipeline runs. -/
structure ExtractOnlyOutput where
  total_fields : Nat
  fields : List Field
deriving DecidableEq, Repr

/-- Outcome of `main` after the extraction step. -/
inductive AfterExtract where
  | exitZeroNoOutput : AfterExtract
  | wroteExtractOnly : ExtractOnlyOutput → AfterExtract
  | runLlmPipeline : AfterExtract
deriving DecidableEq, Repr

/-- The branch structure of `main` (src/main.py lines 140-153) after
`extracted_fields` is computed. -/
def mainAfterExtract (extract_only : Bool) (extracted_fields : List Field) : AfterExtract :=
  if extracted_fields.isEmpty then .exitZeroNoOutput
  else if extract_only then
    .wroteExtractOnly { total_fields := extracted_fields.length, fields := extracted_fields }
  else .runLlmPipeline

/-- The output file contents written by the step, if any. -/
def writtenOutput : AfterExtract → Option ExtractOnlyOutput
  | .wroteExtractOnly o => some o
  | _ => none

/-- The process exit code, when the run ends in this step (`none` when the
LLM pipeline continues). -/
def exitCode : AfterExtract → Option Nat
  | .exitZeroNoOutput => some 0
  | .wroteExtractOnly _ => some 0
  | .runLlmPipeline => none

/-- Keys of a `pyDictInsert` result: unchanged when the key existed, the new
key appended otherwise. -/
theorem pyDictInsert_keys {α : Type} (m : List (String × α)) (k : String) (v : α) :
    (pyDictInsert m k v).map Prod.fst =
      if k ∈ m.map Prod.fst then m.map Prod.fst else m.map Prod.fst ++ [k] := by
  rw [pyDictInsert]
  by_cases hk : k ∈ m.map Prod.fst
  · rw [if_pos hk, if_pos hk, List.map_map]
    congr 1
    funext p
    by_cases hp : p.1 = k
    · simp [hp]
    · simp [hp]
  · rw [if_neg hk, if_neg hk]
    simp

/-- `pyDictInsert` preserves key uniqueness. -/
theorem pyDictInsert_keys_nodup {α : Type} (m : List (String × α)) (k : String) (v : α)
    (h : (m.map Prod.fst).Nodup) : ((pyDictInsert m k v).map Prod.fst).Nodup := by
  rw [pyDictInsert_keys]
  by_cases hk : k ∈ m.map Prod.fst
  · rwa [if_pos hk]
  · rw [if_neg hk]
    simp [List.nodup_append, h, hk]

/-- Looking up the replaced key after the in-place overwrite pass. -/
theorem pyLookup_map_replace_self {α : Type} (k : String) (v : α) :
    ∀ m : List (String × α), k ∈ m.map Prod.fst →
      pyLookup k (m.map fun p => if p.1 = k then (p.1, v) else p) = some v := by
  intro m
  induction m with
  | nil => intro h; simp at h
  | cons p rest ih =>
    intro hk
    simp only [List.map_cons]
    by_cases hpk : p.1 = k
    · rw [if_pos hpk, pyLookup, if_pos hpk.symm]
    · rw [if_neg hpk, pyLookup, if_neg fun hcon => hpk hcon.symm]
      refine ih ?_
      simp only [List.map_cons, List.mem_cons] at hk
      exact hk.resolve_left fun hcon => hpk hcon.symm

/-- Looking up any other key after the in-place overwrite pass. -/
theorem pyLookup_map_replace_ne {α : Type} (k : String) (v : α) (k' : String)
    (hne : k' ≠ k) :
    ∀ m : List (String × α),
      pyLookup k' (m.map fun p => if p.1 = k then (p.1, v) else p) = pyLookup k' m := by
  intro m
  induction m with
  | nil => rfl
  | cons p rest ih =>
    simp only [List.map_cons]
    by_cases hpk : p.1 = k
    · rw [if_pos hpk, pyLookup, pyLookup,
        if_neg (fun hcon : k' = p.1 => hne (hcon.trans hpk)),
        if_neg (fun hcon : k' = p.1 => hne (hcon.trans hpk)), ih]
    · rw [if_neg hpk, pyLookup, pyLookup]
      by_cases hq : k' = p.1
      · rw [if_pos hq, if_pos hq]
      · rw [if_neg hq, if_neg hq, ih]

/-- Looking up after appending a fresh binding. -/
theorem pyLookup_append_single {α : Type} (k : String) (v : α) (k' : String) :
    ∀ m : List (String × α), k ∉ m.map Prod.fst →
      pyLookup k' (m ++ [(k, v)]) = if k' = k then some v else pyLookup k' m := by
  intro m
  induction m with
  | nil =>
    intro _
    by_cases hk' : k' = k
    · simp [pyLookup, hk']
    · simp [pyLookup, hk']
  | cons p rest ih =>
    intro hk
    simp only [List.map_cons, List.mem_cons] at hk
    push_neg at hk
    rw [List.cons_append, pyLookup, pyLookup]
    by_cases hq : k' = p.1
    · rw [if_pos hq, if_pos hq,
        if_neg fun hcon : k' = k => hk.1 (hcon.symm.trans hq)]
    · rw [if_neg hq, if_neg hq, ih hk.2]

/-- Lookup after a `pyDictInsert`: the inserted key maps to the new value,
every other key is unaffected. -/
theorem pyLookup_pyDictInsert {α : Type} (m : List (String × α)) (k : String) (v : α)
    (k' : String) :
    pyLookup k' (pyDictInsert m k v) = if k' = k then some v else pyLookup k' m := by
  rw [pyDictInsert]
  by_cases hk : k ∈ m.map Prod.fst
  · rw [if_pos hk]
    by_cases hk' : k' = k
    · rw [if_pos hk', hk' , pyLookup_map_replace_self k v m hk]
    · rw [if_neg hk', pyLookup_map_replace_ne k v k' hk' m]
  · rw [if_neg hk]
    exact pyLookup_append_single k v k' m hk

/-- `insertParents` preserves key uniqueness. -/
theorem insertParents_keys_nodup (qs : List ParentQuestion) :
    ∀ acc : List (String × Entry), (acc.map Prod.fst).Nodup →
      ((insertParents acc qs).map Prod.fst).Nodup := by
  induction qs with
  | nil => intro acc h; exact h
  | cons q rest ih =>
    intro acc h
    exact ih _ (pyDictInsert_keys_nodup _ _ _ h)

/-- `insertFields` preserves key uniqueness. -/
theorem insertFields_keys_nodup (oracle : String → Option LabelExp)
    (relationships : List (String × RelVal)) (fs : List Field) :
    ∀ (acc : List (String × Entry)) (idx : Nat), (acc.map Prod.fst).Nodup →
      ((insertFields oracle relationships acc idx fs).map Prod.fst).Nodup := by
  induction fs with
  | nil => intro acc idx h; exact h
  | cons f rest ih =>
    intro acc idx h
    exact ih _ _ (pyDictInsert_keys_nodup _ _ _ h)

/-- `insertFields` over an appended list splits into two passes. -/
theorem insertFields_append (oracle : String → Option LabelExp)
    (relationships : List (String × RelVal)) (xs ys : List Field) :
    ∀ (acc : List (String × Entry)) (idx : Nat),
      insertFields oracle relationships acc idx (xs ++ ys)
        = insertFields oracle relationships
            (insertFields oracle relationships acc idx xs) (idx + xs.length) ys := by
  induction xs with
  | nil => intro acc idx; simp [insertFields]
  | cons x xs ih =>
    intro acc idx
    have h1 : insertFields oracle relationships acc idx ((x :: xs) ++ ys)
        = insertFields oracle relationships
            (pyDictInsert acc x.field_name (mkFieldEntry oracle relationships idx x))
            (idx + 1) (xs ++ ys) := rfl
    have h2 : insertFields oracle relationships acc idx (x :: xs)
        = insertFields oracle relationships
            (pyDictInsert acc x.field_name (mkFieldEntry oracle relationships idx x))
            (idx + 1) xs := rfl
    rw [h1, ih, h2,
      show idx + (x :: xs).length = idx + 1 + xs.length from by
        simp only [List.length_cons]; omega]

/-- A pass of `insertFields` over fields whose names all differ from `k`
leaves the value at key `k` unchanged. -/
theorem pyLookup_insertFields_ne (oracle : String → Option LabelExp)
    (relationships : List (String × RelVal)) (k : String) (fs : List Field)
    (hfs : ∀ g ∈ fs, g.field_name ≠ k) :
    ∀ (acc : List (String × Entry)) (idx : Nat),
      pyLookup k (insertFields oracle relationships acc idx fs) = pyLookup k acc := by
  induction fs with
  | nil => intro acc idx; rfl
  | cons f rest ih =>
    intro acc idx
    rw [insertFields, ih (fun g hg => hfs g (List.mem_cons_of_mem f hg)),
      pyLookup_pyDictInsert,
      if_neg fun hcon => hfs f (List.mem_cons_self f rest) hcon.symm]

/-- An entry-wise invariant is preserved by `pyDictInsert`. -/
theorem pyDictInsert_forall (P : Entry → Prop) (m : List (String × Entry))
    (k : String) (v : Entry) (hm : ∀ p ∈ m, P p.2) (hv : P v) :
    ∀ p ∈ pyDictInsert m k v, P p.2 := by
  intro p hp
  rw [pyDictInsert] at hp
  by_cases hk : k ∈ m.map Prod.fst
  · rw [if_pos hk] at hp
    obtain ⟨q, hq, hpq⟩ := List.mem_map.mp hp
    by_cases hq1 : q.1 = k
    · rw [if_pos hq1] at hpq
      rw [← hpq]
      exact hv
    · rw [if_neg hq1] at hpq
      rw [← hpq]
      exact hm q hq
  · rw [if_neg hk] at hp
    rcases List.mem_append.mp hp with h1 | h2
    · exact hm p h1
    · simp only [List.mem_singleton] at h2
      rw [h2]
      exact hv

/-- An entry-wise invariant holding of every produced field entry and of the
accumulator is preserved by `insertFields`. -/
theorem insertFields_forall (P : Entry → Prop) (oracle : String → Option LabelExp)
    (relationships : List (String × RelVal))
    (hmk : ∀ (idx : Nat) (f : Field), P (mkFieldEntry oracle relationships idx f))
    (fs : List Field) :
    ∀ (acc : List (String × Entry)) (idx : Nat), (∀ p ∈ acc, P p.2) →
      ∀ p ∈ insertFields oracle relationships acc idx fs, P p.2 := by
  induction fs with
  | nil => intro acc idx hacc; exact hacc
  | cons f rest ih =>
    intro acc idx hacc
    exact ih _ _ (pyDictInsert_forall P acc f.field_name _ hacc (hmk idx f))

/-- The entry `_generate_conditional_logic` actually builds for `exNameField`
under the conditional-logic fallback and a failing label call. -/
def exFallbackEntry : Entry :=
  .fieldE "What is your name?" "Enter your name" "text" false "Enter your name"
    { field_name := "Name", source_pdf := ["a.pdf"], order_index := 0,
      parent := none, position := none, parent_condition := none } none none

/-- C3 is false as stated: under the conditional-logic fallback the single
field entry's `_metadata` dict does carry a `parent` key — it is always
present, with value `None` — so "no field entry's `_metadata` carries a parent
key" fails (the `parent_condition` key is indeed absent). -/
theorem condlogic_parent_key_counterexample :
    _generate_conditional_logic [exNameField] none (fun _ => none)
      = [("Name", exFallbackEntry)]
    ∧ "parent" ∈ entryMetaKeys exFallbackEntry
    ∧ entryParent exFallbackEntry = none
    ∧ "parent_condition" ∉ entryMetaKeys exFallbackEntry := by
  exact ⟨by decide, by decide, rfl, by decide⟩

/-- C3 (amended): for every field list, when the structural-synthesis response
is unparseable, the assembled schema contains zero entries flagged as parent
questions, and every field entry's `_metadata` has `parent = None` (the key is
present with a null value) and carries no `parent_condition` key. -/
theorem condlogic_fallback_no_parent_questions (fields : List Field)
    (oracle : String → Option LabelExp) :
    ((_generate_conditional_logic fields none oracle).filter fun p =>
        isParentQuestion p.2) = []
    ∧ ∀ p ∈ _generate_conditional_logic fields none oracle,
        entryParent p.2 = none ∧ "parent_condition" ∉ entryMetaKeys p.2 := by
  have hall : ∀ p ∈ insertFields oracle [] ([] : List (String × Entry)) 0 fields,
      isParentQuestion p.2 = false ∧ entryParent p.2 = none
        ∧ "parent_condition" ∉ entryMetaKeys p.2 := by
    refine insertFields_forall
      (fun e => isParentQuestion e = false ∧ entryParent e = none
        ∧ "parent_condition" ∉ entryMetaKeys e)
      oracle [] ?_ fields [] 0 (by intro p hp; cases hp)
    intro idx f
    refine ⟨rfl, rfl, ?_⟩
    have hmeta : entryMetaKeys (mkFieldEntry oracle [] idx f)
        = ["field_name", "source_pdf", "order_index", "parent", "position"] := rfl
    rw [hmeta]
    decide
  constructor
  · rw [List.filter_eq_nil_iff]
    intro p hp
    simp [(hall p hp).1]
  · intro p hp
    exact ⟨(hall p hp).2.1, (hall p hp).2.2⟩

/-- Witness for C3 (amended) at the concrete fallback schema of the
counterexample scenario. -/
theorem condlogic_fallback_no_parent_questions_witness :
    entryParent exFallbackEntry = none
    ∧ "parent_condition" ∉ entryMetaKeys exFallbackEntry :=
  (condlogic_fallback_no_parent_questions [exNameField] (fun _ => none)).2
    ("Name", exFallbackEntry) (by decide)

/-- C4: schema assembly inserts all synthesized parent questions (keyed by
`question_id`) before any field (keyed by `field_name`); the final mapping's
keys are unique, and the entry stored at a key equal to some field's name is
that of the *last* such field — any earlier entry under the same key,
including a synthesized parent question's, is silently overwritten with no
detection or rejection. -/
theorem schema_assembly_last_write_wins (resp : Option CondLogic)
    (oracle : String → Option LabelExp) (fields : List Field) :
    ((_generate_conditional_logic fields resp oracle).map Prod.fst).Nodup
    ∧ (∀ (l₁ : List Field) (f : Field) (l₂ : List Field),
        fields = l₁ ++ f :: l₂ →
        (∀ g ∈ l₂, g.field_name ≠ f.field_name) →
        pyLookup f.field_name (_generate_conditional_logic fields resp oracle)
          = some (mkFieldEntry oracle
              (resp.getD
                { parent_questions := [], field_relationships := [] }).field_relationships
              l₁.length f)) := by
  constructor
  · exact insertFields_keys_nodup oracle _ fields _ 0
      (insertParents_keys_nodup _ [] List.nodup_nil)
  · intro l₁ f l₂ hsplit hne
    subst hsplit
    rw [_generate_conditional_logic]
    rw [insertFields_append]
    have hcons : ∀ (acc : List (String × Entry)) (idx : Nat),
        insertFields oracle
            (resp.getD
              { parent_questions := [], field_relationships := [] }).field_relationships
            acc idx (f :: l₂)
          = insertFields oracle
              (resp.getD
                { parent_questions := [], field_relationships := [] }).field_relationships
              (pyDictInsert acc f.field_name
                (mkFieldEntry oracle
                  (resp.getD
                    { parent_questions := [], field_relationships := [] }).field_relationships
                  idx f))
              (idx + 1) l₂ := fun _ _ => rfl
    rw [hcons]
    rw [pyLookup_insertFields_ne _ _ _ l₂ hne]
    rw [pyLookup_pyDictInsert, if_pos rfl]
    rw [Nat.zero_add]

/-- A parsed conditional-logic response whose synthesized parent question's
`question_id` collides with the only field's name. -/
def exCollideResp : Option CondLogic :=
  some { parent_questions :=
           [{ question_id := "Name", label := "Collide?", qtype := "boolean" }]
         field_relationships := [] }

/-- Witness for C4: the field entry wins the key collision with the
synthesized parent question inserted before it. -/
theorem schema_assembly_last_write_wins_witness :
    pyLookup "Name" (_generate_conditional_logic [exNameField] exCollideResp (fun _ => none))
      = some (mkFieldEntry (fun _ => none)
          (exCollideResp.getD
            { parent_questions := [], field_relationships := [] }).field_relationships
          0 exNameField) :=
  (schema_assembly_last_write_wins exCollideResp (fun _ => none) [exNameField]).2
    [] exNameField [] rfl (by intro g hg; cases hg)

/-- C2 is false as stated: in extract-only mode with zero extracted fields,
`main` prints a notice and exits with code 0 *before* the extract-only branch,
so no output file is written at all — in particular not one containing
`{"total_fields": 0, "fields": []}`. -/
theorem extract_only_empty_counterexample :
    mainAfterExtract true [] = AfterExtract.exitZeroNoOutput
    ∧ writtenOutput (mainAfterExtract true []) = none
    ∧ exitCode (mainAfterExtract true []) = some 0
    ∧ writtenOutput (mainAfterExtract true [])
        ≠ some { total_fields := 0, fields := [] } := by
  exact ⟨rfl, rfl, rfl, by decide⟩

/-- C2 (amended): in extract-only mode, with zero extracted fields the program
terminates with exit code 0 but writes no output file (the zero-field early
exit precedes the extract-only branch); with at least one extracted field it
writes `{"total_fields": N, "fields": [...]}`. -/
theorem extract_only_empty_behavior :
    (mainAfterExtract true [] = AfterExtract.exitZeroNoOutput
      ∧ exitCode (mainAfterExtract true []) = some 0
      ∧ writtenOutput (mainAfterExtract true []) = none)
    ∧ ∀ extracted : List Field, extracted ≠ [] →
        mainAfterExtract true extracted
          = .wroteExtractOnly { total_fields := extracted.length, fields := extracted } := by
  refine ⟨⟨rfl, rfl, rfl⟩, ?_⟩
  intro extracted hne
  rw [mainAfterExtract, if_neg (by simp [hne]), if_pos rfl]

/-- Witness for C2 (amended) at a one-record extraction. -/
theorem extract_only_empty_behavior_witness :
    mainAfterExtract true [exNameField]
      = AfterExtract.wroteExtractOnly { total_fields := 1, fields := [exNameField] } :=
  extract_only_empty_behavior.2 [exNameField] (by decide)

end AcroformPipeline
